import Mathlib

/-!
Verification development for the Power Grid game engine
(`game_engine.py`, `create_use_resources.py`, `Player_class.py`,
`player_action.py`, `card.py`).

The Python code is shallowly embedded: each Python function that the
properties below talk about is rendered as an executable Lean definition
with the same name, over explicit state records.  Machine integers are
modelled as `Int`/`Nat` (Python integers are unbounded, so no wrap-around
is needed), mutation as state passing, raised exceptions / error returns
as `Option`/`Except`.
-/

/-- Resource tag of a power-plant card (`card.resource` strings in the
source: `coal`, `oil`, `gas`, `uranium`, `nuclear`, `green`, `oil&gas`,
and the special `stage three` marker). -/
inductive RType where
  | coal
  | oil
  | gas
  | uranium
  | nuclear
  | green
  | oilgas
  | stageThree
  deriving DecidableEq, Repr

/-- `card.py` — a power-plant card: `cost`, `resource`, `resource_cost`,
`cities` (the `type` dark/light field is derived and irrelevant here). -/
structure Card where
  cost : Int
  resource : RType
  resource_cost : Nat
  cities : Nat
  deriving DecidableEq, Repr

/-- `Player_class.py::Player.update_money` — the only money mutation in
the code base: `if self.money + amount < 0: reject else: self.money += amount`. -/
def update_money (money : Int) (amount : Int) : Int :=
  if money + amount < 0 then money else money + amount

/-- `game_engine.py::PAYMENT_TABLE.get(n, 0)` — Elektro earned for
powering `n` cities. -/
def payment_table (n : Nat) : Int :=
  match n with
  | 0 => 10 | 1 => 22 | 2 => 33 | 3 => 44 | 4 => 54 | 5 => 64 | 6 => 73
  | 7 => 82 | 8 => 90 | 9 => 98 | 10 => 105 | 11 => 112 | 12 => 118
  | 13 => 124 | 14 => 129 | 15 => 134 | 16 => 138 | 17 => 142 | 18 => 145
  | 19 => 148 | 20 => 150
  | _ => 0

/-- One money-affecting engine operation, with adversarial (unconstrained)
numeric payloads supplied by the strategies:
* `auctionWin bid` — `execute_plant_purchase`: `player.update_money(-bid_amount)`;
* `buyResources cost money_ok` — `phase_3_buy_resources`: the engine skips
  the purchase when `cost > player.money` (`money_ok` records the branch),
  otherwise `player.update_money(-cost)`;
* `build total_cost pos_ok` — `phase_4_build`: executed only when
  `player.money >= total_cost` and the slot position is legal (`pos_ok`);
* `payout powered` — `phase_5_bureaucracy`: `player.update_money(payment)`. -/
inductive MoneyOp where
  | auctionWin (bid : Int)
  | buyResources (cost : Int)
  | build (total_cost : Int) (pos_ok : Bool)
  | payout (powered : Nat)
  deriving Repr

/-- Effect of one engine operation on a player's money, following the
guard structure of the Python code verbatim. -/
def apply_money_op (money : Int) : MoneyOp → Int
  | .auctionWin bid => update_money money (-bid)
  | .buyResources cost =>
      if cost > money then money else update_money money (-cost)
  | .build total_cost pos_ok =>
      if money ≥ total_cost ∧ pos_ok then update_money money (-total_cost)
      else money
  | .payout powered => update_money money (payment_table powered)

/-- A player's money after an arbitrary interleaving of engine money
operations (every phase of the engine only touches money through these). -/
def run_money_ops (money : Int) (ops : List MoneyOp) : Int :=
  ops.foldl apply_money_op money

theorem update_money_nonneg (money amount : Int) (h : 0 ≤ money) :
    0 ≤ update_money money amount := by
  unfold update_money
  split
  · exact h
  · omega

theorem apply_money_op_nonneg (money : Int) (op : MoneyOp) (h : 0 ≤ money) :
    0 ≤ apply_money_op money op := by
  cases op with
  | auctionWin bid => exact update_money_nonneg money (-bid) h
  | buyResources cost =>
      simp only [apply_money_op]
      split
      · exact h
      · exact update_money_nonneg money (-cost) h
  | build total_cost pos_ok =>
      simp only [apply_money_op]
      split
      · exact update_money_nonneg money (-total_cost) h
      · exact h
  | payout powered => exact update_money_nonneg money (payment_table powered) h

theorem run_money_ops_nonneg (ops : List MoneyOp) (money : Int) (h : 0 ≤ money) :
    0 ≤ run_money_ops money ops := by
  induction ops generalizing money with
  | nil => exact h
  | cons op rest ih =>
      simp only [run_money_ops, List.foldl_cons]
      exact ih (apply_money_op money op) (apply_money_op_nonneg money op h)

/-- C1. No player's money is ever negative after any phase of the engine,
for arbitrary (even adversarial/over-bidding) strategy inputs: every money
mutation in the engine goes through `Player.update_money`, which rejects
any change that would drive the balance below zero before mutating, and
the phase-level guards (`phase_3_buy_resources` cost check,
`phase_4_build` affordability check) only skip operations.  Hence from
any non-negative starting balance (players start with 50), any sequence
of auction payments, resource purchases, builds and payouts with
arbitrary amounts leaves the balance non-negative. -/
theorem money_never_negative (start : Int) (ops : List MoneyOp)
    (h : 0 ≤ start) : 0 ≤ run_money_ops start ops :=
  run_money_ops_nonneg ops start h

/-- Witness for C1 at a concrete adversarial trace: starting from the
initial 50 Elektro, an over-bid of 80, a resource purchase of 20, an
unaffordable build of 100 and the zero-cities payout leave money at 40 ≥ 0. -/
theorem money_never_negative_witness :
    (0 : Int) ≤ 50 ∧
    run_money_ops 50 [.auctionWin 80, .buyResources 20, .build 100 true,
      .payout 0] = 40 ∧
    0 ≤ run_money_ops 50 [.auctionWin 80, .buyResources 20, .build 100 true,
      .payout 0] :=
  ⟨by norm_num,
   by decide,
   money_never_negative 50 [.auctionWin 80, .buyResources 20, .build 100 true,
     .payout 0] (by norm_num)⟩

/-- `create_use_resources.py::Resource` — a resource pool: `total_supply`
(off-board reserve) and `capacity_list` (the price ladder: each bin is a
price together with its unit slots, `true` = occupied, matching the 1/0
ints of the Python lists). -/
structure Resource where
  total_supply : Nat
  capacity_list : List (Nat × List Bool)
  deriving DecidableEq, Repr

/-- The prices of the occupied slots of one bin, in slot order. -/
def binOccPrices (b : Nat × List Bool) : List Nat :=
  b.2.filterMap (fun s => if s then some b.1 else none)

/-- The prices of all occupied slots of the ladder, in traversal order
(bins in list order, slots in list order) — the order in which both
`poss_purchases` and `buy_resource` walk the board. -/
def occupiedPrices (cl : List (Nat × List Bool)) : List Nat :=
  (cl.map binOccPrices).flatten

/-- Number of occupied slots on the ladder. -/
def occT (cl : List (Nat × List Bool)) : Nat :=
  (cl.map (fun b => b.2.count true)).sum

/-- Number of empty slots on the ladder. -/
def empT (cl : List (Nat × List Bool)) : Nat :=
  (cl.map (fun b => b.2.count false)).sum

/-- Inner loop of `Resource.poss_purchases` over one bin's slots: threads
`bin_count` and `bin_cost` and emits one `(bin_count, bin_cost + price)`
entry per occupied slot. -/
def possSlots (price : Nat) : List Bool → Nat → Nat → List (Nat × Nat) × Nat × Nat
  | [], count, cost => ([], count, cost)
  | s :: rest, count, cost =>
    if s then
      let r := possSlots price rest (count + 1) (cost + price)
      ((count, cost + price) :: r.1, r.2)
    else
      possSlots price rest count cost

/-- Outer loop of `Resource.poss_purchases` over the bins. -/
def possBins : List (Nat × List Bool) → Nat → Nat → List (Nat × Nat)
  | [], _, _ => []
  | b :: bs, count, cost =>
    let r := possSlots b.1 b.2 count cost
    r.1 ++ possBins bs r.2.1 r.2.2

/-- `Resource.poss_purchases` — the association of each purchasable
quantity with its cumulative price (`bin_count` starts at 1, `bin_cost`
at 0). -/
def poss_purchases (cl : List (Nat × List Bool)) : List (Nat × Nat) :=
  possBins cl 1 0

/-- Inner loop of `Resource.buy_resource`: clears the first `k` occupied
slots of a bin (in slot order), returning the new slots and the units
still to clear. -/
def clearSlots : List Bool → Nat → List Bool × Nat
  | [], k => ([], k)
  | s :: rest, k =>
    if s ∧ 0 < k then
      let r := clearSlots rest (k - 1)
      (false :: r.1, r.2)
    else
      let r := clearSlots rest k
      (s :: r.1, r.2)

/-- Outer loop of `Resource.buy_resource` over the bins. -/
def clearBins : List (Nat × List Bool) → Nat → List (Nat × List Bool) × Nat
  | [], k => ([], k)
  | b :: bs, k =>
    let r := clearSlots b.2 k
    let r2 := clearBins bs r.2
    ((b.1, r.1) :: r2.1, r2.2)

/-- `Resource.buy_resource` — checks `num_res in poss_purchases()`, then
clears the first `num_res` occupied slots in board order and returns
`(num_res, total_cost)`; returns an error (`none`) otherwise.
`total_supply` is not touched. -/
def buy_resource (r : Resource) (num_res : Nat) :
    Option ((Nat × Nat) × Resource) :=
  match List.lookup num_res (poss_purchases r.capacity_list) with
  | some cost =>
      some ((num_res, cost),
        { r with capacity_list := (clearBins r.capacity_list num_res).1 })
  | none => none

/-- `Resource.use_resource` — puts used units back into the off-board
reserve; the ladder is untouched. -/
def use_resource (r : Resource) (num_units : Nat) : Resource :=
  { r with total_supply := r.total_supply + num_units }

/-- Inner loop of `Resource.resupply` over one bin's slots, iterated from
the last slot index down to 0 (`range(len-1, -1, -1)`): fills empty slots
while units remain. -/
def fillSlots : List Bool → Nat → List Bool × Nat
  | [], k => ([], k)
  | s :: rest, k =>
    let r := fillSlots rest k
    if s = false ∧ 0 < r.2 then (true :: r.1, r.2 - 1) else (s :: r.1, r.2)

/-- Outer loop of `Resource.resupply` over the bins, iterated from the
last bin index down (the loop is `range(len-1, 0, -1)`, so the caller
excludes bin 0). -/
def fillBins : List (Nat × List Bool) → Nat → List (Nat × List Bool) × Nat
  | [], k => ([], k)
  | b :: bs, k =>
    let r := fillBins bs k
    let r2 := fillSlots b.2 r.2
    ((b.1, r2.1) :: r.1, r2.2)

/-- `Resource.resupply` — computes `units_place = min(resupply_units,
total_supply)` and fills empty slots iterating bins from index
`len(capacity_list)-1` down to index 1 (bin 0 is never visited), slots
from the back; `total_supply` is not changed by the Python code. -/
def resupply (r : Resource) (resupply_units : Nat) : Resource :=
  let units_place := min resupply_units r.total_supply
  match r.capacity_list with
  | [] => r
  | b0 :: rest =>
      { r with capacity_list := b0 :: (fillBins rest units_place).1 }

theorem binOccPrices_cons (price : Nat) (s : Bool) (rest : List Bool) :
    binOccPrices (price, s :: rest) =
      if s then price :: binOccPrices (price, rest)
      else binOccPrices (price, rest) := by
  cases s <;> simp [binOccPrices]

theorem binOccPrices_length (price : Nat) (slots : List Bool) :
    (binOccPrices (price, slots)).length = slots.count true := by
  induction slots with
  | nil => simp [binOccPrices]
  | cons s rest ih =>
      rw [binOccPrices_cons]
      cases s <;> simp [ih, List.count_cons]

theorem binOccPrices_mem (price : Nat) (slots : List Bool) (x : Nat)
    (h : x ∈ binOccPrices (price, slots)) : x = price := by
  induction slots with
  | nil => simp [binOccPrices] at h
  | cons s rest ih =>
      rw [binOccPrices_cons] at h
      cases s with
      | false => exact ih (by simpa using h)
      | true =>
          rcases List.mem_cons.mp (by simpa using h) with h1 | h1
          · exact h1
          · exact ih h1

theorem occupiedPrices_cons (b : Nat × List Bool) (bs : List (Nat × List Bool)) :
    occupiedPrices (b :: bs) = binOccPrices b ++ occupiedPrices bs := by
  simp [occupiedPrices]

theorem occT_eq_length (cl : List (Nat × List Bool)) :
    occT cl = (occupiedPrices cl).length := by
  induction cl with
  | nil => simp [occT, occupiedPrices]
  | cons b bs ih =>
      rw [occupiedPrices_cons]
      simp [occT] at ih ⊢
      rw [ih, binOccPrices_length]

/-- Reference form of the `poss_purchases` loop, over the flat list of
occupied-slot prices in board order. -/
def possList : List Nat → Nat → Nat → List (Nat × Nat)
  | [], _, _ => []
  | p :: ps, count, cost => (count, cost + p) :: possList ps (count + 1) (cost + p)

theorem possSlots_eq (price : Nat) (slots : List Bool) (count cost : Nat) :
    possSlots price slots count cost =
      (possList (binOccPrices (price, slots)) count cost,
       count + (binOccPrices (price, slots)).length,
       cost + (binOccPrices (price, slots)).sum) := by
  induction slots generalizing count cost with
  | nil => simp [possSlots, binOccPrices, possList]
  | cons s rest ih =>
      cases s with
      | false =>
          rw [binOccPrices_cons]
          simp only [Bool.false_eq_true, if_false]
          simpa [possSlots] using ih count cost
      | true =>
          rw [binOccPrices_cons]
          simp only [if_pos rfl]
          simp [possSlots, ih, possList]
          omega


theorem possList_append (l1 l2 : List Nat) (count cost : Nat) :
    possList (l1 ++ l2) count cost =
      possList l1 count cost ++ possList l2 (count + l1.length) (cost + l1.sum) := by
  induction l1 generalizing count cost with
  | nil => simp [possList]
  | cons p ps ih =>
      have hstep : possList ((p :: ps) ++ l2) count cost
          = (count, cost + p) :: possList (ps ++ l2) (count + 1) (cost + p) := rfl
      rw [hstep, ih]
      have h1 : count + (p :: ps).length = (count + 1) + ps.length := by
        simp only [List.length_cons]
        omega
      have h2 : cost + (p :: ps).sum = (cost + p) + ps.sum := by
        simp only [List.sum_cons]
        omega
      rw [h1, h2]
      rfl

theorem possBins_eq (cl : List (Nat × List Bool)) (count cost : Nat) :
    possBins cl count cost = possList (occupiedPrices cl) count cost := by
  induction cl generalizing count cost with
  | nil => simp [possBins, occupiedPrices, possList]
  | cons b bs ih =>
      rw [occupiedPrices_cons, possList_append]
      show (possSlots b.1 b.2 count cost).1 ++
          possBins bs (possSlots b.1 b.2 count cost).2.1
            (possSlots b.1 b.2 count cost).2.2 = _
      rw [possSlots_eq, ih]

theorem lookup_possList (ps : List Nat) (count cost n : Nat) :
    List.lookup n (possList ps count cost) =
      if count ≤ n ∧ n < count + ps.length
      then some (cost + (ps.take (n - count + 1)).sum)
      else none := by
  induction ps generalizing count cost with
  | nil =>
      rw [if_neg (by simp only [List.length_nil]; omega)]
      simp [possList]
  | cons p ps ih =>
      simp only [possList, List.lookup]
      by_cases hn : n = count
      · subst hn
        rw [if_pos (by simp only [List.length_cons]; omega)]
        simp
      · have hbeq : (n == count) = false := by simp [hn]
        rw [hbeq]
        simp only [cond_false]
        rw [ih]
        by_cases hc : count + 1 ≤ n ∧ n < count + 1 + ps.length
        · rw [if_pos hc, if_pos (by simp only [List.length_cons]; omega)]
          have htake : n - count + 1 = (n - (count + 1) + 1) + 1 := by omega
          rw [htake]
          simp only [List.take_succ_cons, List.sum_cons]
          congr 1
          omega
        · rw [if_neg hc, if_neg (by simp only [List.length_cons]; omega)]

/-- The `num_res in poss_purchases()` check together with the looked-up
cost: the dictionary holds exactly the quantities `1..occupied`, each
mapped to the cumulative price of that many occupied slots in board
order. -/
theorem lookup_poss_purchases (cl : List (Nat × List Bool)) (n : Nat) :
    List.lookup n (poss_purchases cl) =
      if 1 ≤ n ∧ n ≤ (occupiedPrices cl).length
      then some ((occupiedPrices cl).take n).sum
      else none := by
  rw [poss_purchases, possBins_eq, lookup_possList]
  by_cases h : 1 ≤ n ∧ n ≤ (occupiedPrices cl).length
  · rw [if_pos (by omega), if_pos h]
    have hn : n - 1 + 1 = n := by omega
    rw [hn]
    simp
  · rw [if_neg (by omega), if_neg h]

theorem clearSlots_zero (slots : List Bool) : clearSlots slots 0 = (slots, 0) := by
  induction slots with
  | nil => rfl
  | cons s rest ih => simp [clearSlots, ih]

theorem binOccPrices_cons_true (price : Nat) (rest : List Bool) :
    binOccPrices (price, true :: rest) = price :: binOccPrices (price, rest) := by
  simp [binOccPrices]

theorem binOccPrices_cons_false (price : Nat) (rest : List Bool) :
    binOccPrices (price, false :: rest) = binOccPrices (price, rest) := by
  simp [binOccPrices]

theorem clearSlots_spec (price : Nat) (slots : List Bool) (k : Nat) :
    binOccPrices (price, (clearSlots slots k).1) =
      (binOccPrices (price, slots)).drop k ∧
    (clearSlots slots k).2 = k - (binOccPrices (price, slots)).length := by
  induction slots generalizing k with
  | nil => simp [clearSlots, binOccPrices]
  | cons s rest ih =>
      cases s with
      | false =>
          have h1 : (clearSlots (false :: rest) k).1
              = false :: (clearSlots rest k).1 := by
            simp [clearSlots]
          have h2 : (clearSlots (false :: rest) k).2 = (clearSlots rest k).2 := by
            simp [clearSlots]
          rw [h1, h2, binOccPrices_cons_false, binOccPrices_cons_false]
          exact ih k
      | true =>
          cases k with
          | zero =>
              rw [clearSlots_zero]
              simp
          | succ m =>
              have h1 : (clearSlots (true :: rest) (m + 1)).1
                  = false :: (clearSlots rest m).1 := by
                simp [clearSlots]
              have h2 : (clearSlots (true :: rest) (m + 1)).2
                  = (clearSlots rest m).2 := by
                simp [clearSlots]
              rw [h1, h2, binOccPrices_cons_false, binOccPrices_cons_true,
                List.drop_succ_cons, List.length_cons]
              exact ⟨(ih m).1, by rw [(ih m).2]; omega⟩

theorem clearBins_spec (cl : List (Nat × List Bool)) (k : Nat) :
    occupiedPrices (clearBins cl k).1 = (occupiedPrices cl).drop k ∧
    (clearBins cl k).2 = k - (occupiedPrices cl).length ∧
    (clearBins cl k).1.map Prod.fst = cl.map Prod.fst := by
  induction cl generalizing k with
  | nil => simp [clearBins, occupiedPrices]
  | cons b bs ih =>
      have h1 : (clearBins (b :: bs) k).1
          = (b.1, (clearSlots b.2 k).1) :: (clearBins bs (clearSlots b.2 k).2).1 :=
        rfl
      have h2 : (clearBins (b :: bs) k).2
          = (clearBins bs (clearSlots b.2 k).2).2 := rfl
      have hs := clearSlots_spec b.1 b.2 k
      have heta : binOccPrices (b.1, b.2) = binOccPrices b := rfl
      rw [heta] at hs
      have hb := ih (clearSlots b.2 k).2
      refine ⟨?_, ?_, ?_⟩
      · rw [h1, occupiedPrices_cons, occupiedPrices_cons,
          List.drop_append_eq_append_drop]
        have hfst : binOccPrices (b.1, (clearSlots b.2 k).1)
            = (binOccPrices b).drop k := hs.1
        rw [hfst, hb.1, hs.2]
      · rw [h2, hb.2.1, hs.2, occupiedPrices_cons, List.length_append]
        omega
      · rw [h1]
        simp only [List.map_cons]
        rw [hb.2.2]


/-- With an ascending price ladder (as every pool in the repository is
built: bins priced 1..9), the occupied-slot prices in board order are
sorted ascending, so the first `n` of them are the `n` cheapest occupied
slots. -/
theorem occupiedPrices_sorted (cl : List (Nat × List Bool))
    (h : (cl.map Prod.fst).Pairwise (· ≤ ·)) :
    (occupiedPrices cl).Pairwise (· ≤ ·) := by
  rw [occupiedPrices, List.pairwise_flatten]
  constructor
  · intro l hl
    rcases List.mem_map.mp hl with ⟨b, _, rfl⟩
    apply List.pairwise_of_forall_mem_list
    intro x hx y hy
    rw [binOccPrices_mem b.1 b.2 x hx, binOccPrices_mem b.1 b.2 y hy]
  · rw [List.pairwise_map]
    rw [List.pairwise_map] at h
    refine h.imp ?_
    intro a b hab x hx y hy
    rw [binOccPrices_mem a.1 a.2 x hx, binOccPrices_mem b.1 b.2 y hy]
    exact hab

theorem occT_cons (b : Nat × List Bool) (bs : List (Nat × List Bool)) :
    occT (b :: bs) = b.2.count true + occT bs := by
  simp [occT]

theorem empT_cons (b : Nat × List Bool) (bs : List (Nat × List Bool)) :
    empT (b :: bs) = b.2.count false + empT bs := by
  simp [empT]

theorem fillSlots_spec (slots : List Bool) (k : Nat) :
    (fillSlots slots k).1.count true
      = slots.count true + min k (slots.count false) ∧
    (fillSlots slots k).2 = k - slots.count false := by
  induction slots with
  | nil => simp [fillSlots]
  | cons s rest ih =>
      obtain ⟨ih1, ih2⟩ := ih
      simp only [fillSlots]
      split
      · next h =>
          obtain ⟨hs, hpos⟩ := h
          subst hs
          rw [ih2] at hpos
          simp only [List.count_cons, beq_iff_eq]
          simp only [ih1, ih2]
          simp only [show (true = true) = True by simp,
            show (false = true) = False by simp,
            show (false = false) = True by simp, if_true, if_false]
          omega
      · next h =>
          cases s with
          | false =>
              have hz : (fillSlots rest k).2 = 0 := by
                by_contra hne
                exact h ⟨rfl, Nat.pos_of_ne_zero hne⟩
              rw [ih2] at hz
              simp only [List.count_cons, beq_iff_eq]
              simp only [ih1, ih2]
              simp only [show (true = true) = True by simp,
                show (false = true) = False by simp,
                show (false = false) = True by simp, if_true, if_false]
              omega
          | true =>
              simp only [List.count_cons, beq_iff_eq]
              simp only [ih1, ih2]
              simp only [show (true = true) = True by simp,
                show (false = true) = False by simp,
                show (true = false) = False by simp, if_true, if_false]
              omega

theorem fillBins_cons (b : Nat × List Bool) (bs : List (Nat × List Bool)) (k : Nat) :
    fillBins (b :: bs) k
      = ((b.1, (fillSlots b.2 (fillBins bs k).2).1) :: (fillBins bs k).1,
         (fillSlots b.2 (fillBins bs k).2).2) := rfl

theorem fillBins_spec (bs : List (Nat × List Bool)) (k : Nat) :
    occT (fillBins bs k).1 = occT bs + min k (empT bs) ∧
    (fillBins bs k).2 = k - empT bs := by
  induction bs with
  | nil => simp [fillBins, occT, empT]
  | cons b bs ih =>
      obtain ⟨ih1, ih2⟩ := ih
      have hs := fillSlots_spec b.2 (fillBins bs k).2
      rw [fillBins_cons]
      constructor
      · rw [occT_cons, occT_cons, empT_cons]
        simp only []
        rw [hs.1, ih1, ih2]
        omega
      · simp only []
        rw [hs.2, ih2, empT_cons]
        omega

theorem fillBins_drop (bs : List (Nat × List Bool)) (k n : Nat) :
    occT ((fillBins bs k).1.drop n)
      = occT (bs.drop n) + min k (empT (bs.drop n)) := by
  induction bs generalizing n with
  | nil => simp [fillBins, occT, empT]
  | cons b bs ih =>
      cases n with
      | zero => simpa using (fillBins_spec (b :: bs) k).1
      | succ m =>
          rw [fillBins_cons]
          simp only [List.drop_succ_cons]
          exact ih m

theorem fillBins_fst (bs : List (Nat × List Bool)) (k : Nat) :
    (fillBins bs k).1.map Prod.fst = bs.map Prod.fst := by
  induction bs with
  | nil => rfl
  | cons b bs ih =>
      rw [fillBins_cons]
      simp only [List.map_cons]
      rw [ih]

theorem fillSlots_mono (slots : List Bool) (k : Nat) :
    List.Forall₂ (fun a b => a = true → b = true) slots (fillSlots slots k).1 := by
  induction slots with
  | nil => simp [fillSlots]
  | cons s rest ih =>
      simp only [fillSlots]
      split
      · exact List.Forall₂.cons (fun _ => rfl) ih
      · exact List.Forall₂.cons (fun hh => hh) ih

theorem fillBins_mono (bs : List (Nat × List Bool)) (k : Nat) :
    List.Forall₂ (fun x y => x.1 = y.1 ∧
      List.Forall₂ (fun a b => a = true → b = true) x.2 y.2)
      bs (fillBins bs k).1 := by
  induction bs with
  | nil => simp [fillBins]
  | cons b bs ih =>
      rw [fillBins_cons]
      exact List.Forall₂.cons ⟨rfl, fillSlots_mono b.2 (fillBins bs k).2⟩ ih

/-- Closed form of `buy_resource`: the purchase succeeds exactly for
quantities `1..occupied`, paying the cumulative price of the first
`num_res` occupied slots in board order and clearing those slots. -/
theorem buy_resource_eq (r : Resource) (n : Nat) :
    buy_resource r n =
      if 1 ≤ n ∧ n ≤ (occupiedPrices r.capacity_list).length
      then some ((n, ((occupiedPrices r.capacity_list).take n).sum),
        { r with capacity_list := (clearBins r.capacity_list n).1 })
      else none := by
  unfold buy_resource
  rw [lookup_poss_purchases]
  by_cases hc : 1 ≤ n ∧ n ≤ (occupiedPrices r.capacity_list).length
  · rw [if_pos hc, if_pos hc]
  · rw [if_neg hc, if_neg hc]

/-- C2 (amended: the requested amount must be at least 1, because
`poss_purchases` only maps quantities `1..occupied`, so `buy_resource(0)`
returns the not-enough-resources error even though zero slots suffice).
For an ascending price ladder and `1 ≤ n ≤` occupied slots:
`buy_resource` returns `(n, total_cost)` with `total_cost` the sum of the
first `n` occupied-slot prices — which are sorted ascending, i.e. the `n`
cheapest occupied slots — exactly those slots become empty (the remaining
occupied prices are the residual suffix and the occupied count drops by
exactly `n`), and the call fails whenever fewer than `n` occupied slots
exist. -/
theorem buy_resource_cheapest (r : Resource) (n : Nat)
    (hsort : (r.capacity_list.map Prod.fst).Pairwise (· ≤ ·))
    (h1 : 1 ≤ n) (h2 : n ≤ (occupiedPrices r.capacity_list).length) :
    (occupiedPrices r.capacity_list).Pairwise (· ≤ ·) ∧
    (∃ r2 : Resource,
      buy_resource r n
        = some ((n, ((occupiedPrices r.capacity_list).take n).sum), r2) ∧
      r2.total_supply = r.total_supply ∧
      occupiedPrices r2.capacity_list
        = (occupiedPrices r.capacity_list).drop n ∧
      occT r2.capacity_list = occT r.capacity_list - n ∧
      r2.capacity_list.map Prod.fst = r.capacity_list.map Prod.fst) ∧
    (∀ m : Nat, (occupiedPrices r.capacity_list).length < m →
      buy_resource r m = none) := by
  have hcb := clearBins_spec r.capacity_list n
  refine ⟨occupiedPrices_sorted r.capacity_list hsort,
    ⟨{ r with capacity_list := (clearBins r.capacity_list n).1 }, ?_, rfl,
      hcb.1, ?_, hcb.2.2⟩, ?_⟩
  · rw [buy_resource_eq, if_pos ⟨h1, h2⟩]
  · show occT (clearBins r.capacity_list n).1 = occT r.capacity_list - n
    rw [occT_eq_length, occT_eq_length, hcb.1, List.length_drop]
  · intro m hm
    rw [buy_resource_eq, if_neg (by omega)]

/-- Witness for C2 at a concrete pool: prices 1 and 2, three occupied
slots, buying 2 units. -/
theorem buy_resource_cheapest_witness :
    ((([(1, [true, true]), (2, [true, false])] : List (Nat × List Bool)).map
        Prod.fst).Pairwise (· ≤ ·) ∧
      1 ≤ 2 ∧
      2 ≤ (occupiedPrices [(1, [true, true]), (2, [true, false])]).length) ∧
    (∃ r2 : Resource,
      buy_resource ⟨5, [(1, [true, true]), (2, [true, false])]⟩ 2
        = some ((2,
            ((occupiedPrices [(1, [true, true]), (2, [true, false])]).take 2).sum),
          r2) ∧
      r2.total_supply = 5 ∧
      occupiedPrices r2.capacity_list
        = (occupiedPrices [(1, [true, true]), (2, [true, false])]).drop 2 ∧
      occT r2.capacity_list = occT [(1, [true, true]), (2, [true, false])] - 2 ∧
      r2.capacity_list.map Prod.fst
        = ([(1, [true, true]), (2, [true, false])] : List (Nat × List Bool)).map
            Prod.fst) ∧
    buy_resource ⟨5, [(1, [true, true]), (2, [true, false])]⟩ 4 = none := by
  have h := buy_resource_cheapest ⟨5, [(1, [true, true]), (2, [true, false])]⟩ 2
    (by decide) (by decide) (by decide)
  exact ⟨⟨by decide, by decide, by decide⟩, h.2.1, h.2.2 4 (by decide)⟩

/-- C2 counterexample to the claim as stated: for `n = 0` the pool has at
least `n` occupied slots, yet `buy_resource` returns the
not-enough-resources error instead of `(0, 0)`, because `0` is not a key
of the `poss_purchases` dictionary. -/
theorem buy_resource_zero_counterexample :
    0 ≤ (occupiedPrices [(1, [true])]).length ∧
    buy_resource ⟨0, [(1, [true])]⟩ 0 = none := by
  decide

/-- C5 counterexample to the claimed invariant: buying one unit clears a
slot but leaves `total_supply` unchanged, so `occupied + total_supply`
drops from 2 to 1 across a single `buy_resource` call. -/
theorem resource_conservation_counterexample :
    buy_resource ⟨0, [(1, [true]), (2, [true])]⟩ 1
      = some ((1, 1), ⟨0, [(1, [false]), (2, [true])]⟩) ∧
    occT [(1, [false]), (2, [true])] + 0
      ≠ occT [(1, [true]), (2, [true])] + 0 := by
  decide

/-- C5 (amended).  `occupied + total_supply` is not invariant: a
successful `buy_resource` of `n` units decreases it by exactly `n` (the
bought units leave the pool for the buyer and `total_supply` is not
touched), `use_resource` increases it by the released amount, and
`resupply` increases it by the number of slots it fills —
`min(min(amount, total_supply), empty slots outside the cheapest bin)` —
because the Python code never deducts the placed units from
`total_supply`. -/
theorem resource_unit_deltas (r : Resource) (n amount : Nat) :
    (∀ pr : Nat × Nat, ∀ r2 : Resource, buy_resource r n = some (pr, r2) →
      occT r2.capacity_list + r2.total_supply + n
        = occT r.capacity_list + r.total_supply) ∧
    (occT (use_resource r n).capacity_list + (use_resource r n).total_supply
      = occT r.capacity_list + r.total_supply + n) ∧
    (occT (resupply r amount).capacity_list + (resupply r amount).total_supply
      = occT r.capacity_list + r.total_supply
        + min (min amount r.total_supply) (empT r.capacity_list.tail)) := by
  refine ⟨?_, ?_, ?_⟩
  · intro pr r2 h
    rw [buy_resource_eq] at h
    by_cases hc : 1 ≤ n ∧ n ≤ (occupiedPrices r.capacity_list).length
    · rw [if_pos hc] at h
      obtain ⟨-, hr2⟩ := Option.some.injEq _ _ ▸ Prod.mk.injEq _ _ _ _ ▸
        (Option.some.inj h)
      subst hr2
      have hcb := clearBins_spec r.capacity_list n
      show occT (clearBins r.capacity_list n).1 + r.total_supply + n = _
      rw [occT_eq_length, occT_eq_length, hcb.1, List.length_drop]
      omega
    · rw [if_neg hc] at h
      exact absurd h (by simp)
  · show occT r.capacity_list + (r.total_supply + n) = _
    omega
  · cases hcl : r.capacity_list with
    | nil =>
        simp only [resupply, hcl]
        simp [empT]
    | cons b0 rest =>
        have hred : resupply r amount
            = { r with capacity_list :=
                b0 :: (fillBins rest (min amount r.total_supply)).1 } := by
          unfold resupply
          rw [hcl]
        have hproj1 : (resupply r amount).capacity_list
            = b0 :: (fillBins rest (min amount r.total_supply)).1 := by
          rw [hred]
        have hproj2 : (resupply r amount).total_supply = r.total_supply := by
          rw [hred]
        rw [hproj1, hproj2, List.tail_cons, occT_cons, occT_cons,
          (fillBins_spec rest (min amount r.total_supply)).1]
        omega

/-- Witness for C5 at a concrete pool (reserve 1, one occupied slot of
price 1, one empty slot of price 2), buying, releasing and resupplying
one unit. -/
theorem resource_unit_deltas_witness :
    (occT [(1, [false]), (2, [false])] + 1 + 1
      = occT [(1, [true]), (2, [false])] + 1) ∧
    (occT (use_resource ⟨1, [(1, [true]), (2, [false])]⟩ 1).capacity_list
        + (use_resource ⟨1, [(1, [true]), (2, [false])]⟩ 1).total_supply
      = occT [(1, [true]), (2, [false])] + 1 + 1) ∧
    (occT (resupply ⟨1, [(1, [true]), (2, [false])]⟩ 1).capacity_list
        + (resupply ⟨1, [(1, [true]), (2, [false])]⟩ 1).total_supply
      = occT [(1, [true]), (2, [false])] + 1
        + min (min 1 1) (empT [(2, [false])])) := by
  have h := resource_unit_deltas ⟨1, [(1, [true]), (2, [false])]⟩ 1 1
  exact ⟨h.1 (1, 1) ⟨1, [(1, [false]), (2, [false])]⟩ (by decide), h.2.1, h.2.2⟩

/-- C6 counterexample: both bins have an empty slot and the reserve holds
2 units, yet `resupply(2)` places a single unit — into the price-2 bin —
because the loop `range(len-1, 0, -1)` never visits the cheapest bin, and
`total_supply` stays at 2 instead of being reduced. -/
theorem resupply_counterexample :
    resupply ⟨2, [(1, [false]), (2, [false])]⟩ 2
      = ⟨2, [(1, [false]), (2, [true])]⟩ ∧
    occT [(1, [false]), (2, [true])]
      ≠ occT [(1, [false]), (2, [false])] + min 2 2 := by
  decide

/-- C6 (amended).  `resupply` fills empty slots starting from the
highest-indexed (priciest) bin and moving down, but never touches the
cheapest bin (index 0); it places
`min(min(amount, total_supply), empty slots outside the cheapest bin)`
units and leaves `total_supply` unchanged.  The per-suffix occupied
counts pin the highest-bins-first order: every suffix of the remaining
bins receives `min(units, its own empty-slot count)` units, previously
occupied slots stay occupied, and bin prices are unchanged. -/
theorem resupply_spec (r : Resource) (amount : Nat) (b0 : Nat × List Bool)
    (rest : List (Nat × List Bool)) (hcl : r.capacity_list = b0 :: rest) :
    (resupply r amount).total_supply = r.total_supply ∧
    (resupply r amount).capacity_list.head? = some b0 ∧
    (resupply r amount).capacity_list.map Prod.fst
      = r.capacity_list.map Prod.fst ∧
    (∀ n : Nat, occT (((resupply r amount).capacity_list.tail).drop n)
      = occT (rest.drop n)
        + min (min amount r.total_supply) (empT (rest.drop n))) ∧
    List.Forall₂ (fun x y => x.1 = y.1 ∧
      List.Forall₂ (fun a b => a = true → b = true) x.2 y.2)
      rest ((resupply r amount).capacity_list.tail) := by
  have hred : resupply r amount
      = { r with capacity_list :=
          b0 :: (fillBins rest (min amount r.total_supply)).1 } := by
    unfold resupply
    rw [hcl]
  rw [hred]
  refine ⟨rfl, rfl, ?_, ?_, ?_⟩
  · rw [hcl]
    simp only [List.map_cons]
    rw [fillBins_fst]
  · intro n
    simp only [List.tail_cons]
    exact fillBins_drop rest (min amount r.total_supply) n
  · simp only [List.tail_cons]
    exact fillBins_mono rest (min amount r.total_supply)

/-- Witness for C6 at a concrete pool: cheapest bin empty, an empty and
an occupied slot in the price-2 bin, an empty slot in the price-3 bin,
reserve 3, resupplying 2. -/
theorem resupply_spec_witness :
    (resupply ⟨3, [(1, [false]), (2, [false, true]), (3, [false])]⟩ 2).total_supply
      = 3 ∧
    (resupply ⟨3, [(1, [false]), (2, [false, true]),
      (3, [false])]⟩ 2).capacity_list.head? = some (1, [false]) ∧
    occT (((resupply ⟨3, [(1, [false]), (2, [false, true]),
        (3, [false])]⟩ 2).capacity_list.tail).drop 0)
      = occT ([(2, [false, true]), (3, [false])].drop 0)
        + min (min 2 3) (empT ([(2, [false, true]), (3, [false])].drop 0)) := by
  have h := resupply_spec ⟨3, [(1, [false]), (2, [false, true]), (3, [false])]⟩ 2
    (1, [false]) [(2, [false, true]), (3, [false])] rfl
  exact ⟨h.1, h.2.1, h.2.2.2.1 0⟩

/-- The engine's view of a player (`Player_class.py` state as used by
`game_engine.py`): money, built cities (`generators`), owned plant cards,
and the four-key resource inventory dict. -/
structure PlayerSt where
  money : Int
  generators : List String
  cards : List Card
  coal : Nat
  oil : Nat
  gas : Nat
  uranium : Nat
  deriving DecidableEq, Repr

/-- `player.resources.get(key, 0)` — the inventory dict holds exactly the
keys coal/oil/gas/uranium, every other key defaults to 0. -/
def resGet (p : PlayerSt) (t : RType) : Nat :=
  match t with
  | .coal => p.coal
  | .oil => p.oil
  | .gas => p.gas
  | .uranium => p.uranium
  | _ => 0

/-- Loop of `GameEngine.validate_resource_purchase` over the player's
cards, accumulating `(has_plant, total_capacity)`: a plant of the
requested type adds `resource_cost * 2`, and a hybrid `oil&gas` plant
adds `resource_cost * 2` when oil or gas is requested. -/
def purchaseCapacity (cards : List Card) (resource_type : RType) : Bool × Nat :=
  cards.foldl
    (fun acc card =>
      if card.resource = resource_type then
        (true, acc.2 + card.resource_cost * 2)
      else if card.resource = RType.oilgas ∧
          (resource_type = RType.oil ∨ resource_type = RType.gas) then
        (true, acc.2 + card.resource_cost * 2)
      else acc)
    (false, 0)

/-- `GameEngine.validate_resource_purchase` — rejects when the player owns
no plant of the requested type and when
`current_amount + amount > total_capacity`. -/
def validate_resource_purchase (p : PlayerSt) (resource_type : RType)
    (amount : Nat) : Bool :=
  let r := purchaseCapacity p.cards resource_type
  if ¬ r.1 then false
  else if resGet p resource_type + amount > r.2 then false
  else true

/-- `GameEngine.calculate_cities_powered` — number of cities the player
can power right now, recomputed from current plants, resources and
generators (green plants always run; coal/gas/oil/uranium plants run when
the matching inventory covers `resource_cost`; hybrid plants run when
oil + gas inventory covers it); capped by the number of connected
cities. -/
def calculate_cities_powered (p : PlayerSt) : Nat :=
  let cities_connected := p.generators.length
  let total_power := p.cards.foldl
    (fun acc card =>
      if card.resource = RType.green then acc + card.cities
      else if card.resource = RType.coal ∨ card.resource = RType.gas ∨
          card.resource = RType.oil ∨ card.resource = RType.uranium then
        let resource_type :=
          if card.resource = RType.nuclear then RType.uranium else card.resource
        if resGet p resource_type ≥ card.resource_cost then acc + card.cities
        else acc
      else if card.resource = RType.oilgas then
        if resGet p RType.oil + resGet p RType.gas ≥ card.resource_cost then
          acc + card.cities
        else acc
      else acc)
    0
  min cities_connected total_power

/-- Loop of `GameEngine.determine_winner` building `best_players`:
`best_powered` starts at -1; a strictly higher powered count resets the
list, an equal one appends. -/
def bestPlayersAux : List (Nat × PlayerSt) → Int → List (Nat × PlayerSt) →
    List (Nat × PlayerSt)
  | [], _, best => best
  | e :: rest, best_powered, best =>
    if (calculate_cities_powered e.2 : Int) > best_powered then
      bestPlayersAux rest (calculate_cities_powered e.2 : Int) [e]
    else if (calculate_cities_powered e.2 : Int) = best_powered then
      bestPlayersAux rest best_powered (best ++ [e])
    else
      bestPlayersAux rest best_powered best

/-- One insertion of Python's stable `list.sort(key=money, reverse=True)`:
an element moves ahead of the first entry with strictly smaller money, so
equal-money entries keep their original relative order. -/
def insertByMoneyDesc (x : Nat × PlayerSt) :
    List (Nat × PlayerSt) → List (Nat × PlayerSt)
  | [] => [x]
  | y :: ys =>
    if x.2.money > y.2.money then x :: y :: ys else y :: insertByMoneyDesc x ys

/-- Stable descending-by-money sort (insertion sort, extensionally the
head-relevant behaviour of Python's stable sort with `reverse=True`). -/
def sortByMoneyDesc (l : List (Nat × PlayerSt)) : List (Nat × PlayerSt) :=
  l.foldl (fun acc x => insertByMoneyDesc x acc) []

/-- `GameEngine.determine_winner` — collects the players tied on the
highest recomputed powered-cities count, sorts them by money descending
(stable) when there is more than one, and returns the first index
(`best_players[0][0]`; `none` models the crash on an empty player
list). -/
def determine_winner (players : List PlayerSt) : Option Nat :=
  let best_players := bestPlayersAux players.enum (-1) []
  let sorted :=
    if best_players.length > 1 then sortByMoneyDesc best_players
    else best_players
  sorted.head?.map Prod.fst

/-- Running maximum of `calculate_cities_powered` over indexed players,
seeded with the `best_powered` accumulator. -/
def maxCp (l : List (Nat × PlayerSt)) (bv : Int) : Int :=
  l.foldl (fun m e => max m (calculate_cities_powered e.2 : Int)) bv

theorem maxCp_cons (e : Nat × PlayerSt) (l : List (Nat × PlayerSt)) (bv : Int) :
    maxCp (e :: l) bv = maxCp l (max bv (calculate_cities_powered e.2 : Int)) :=
  rfl

theorem le_maxCp (l : List (Nat × PlayerSt)) (bv : Int) : bv ≤ maxCp l bv := by
  induction l generalizing bv with
  | nil => exact le_refl bv
  | cons e l ih =>
      rw [maxCp_cons]
      exact le_trans (le_max_left _ _) (ih _)

theorem cp_le_maxCp (l : List (Nat × PlayerSt)) (bv : Int) (e : Nat × PlayerSt)
    (he : e ∈ l) : (calculate_cities_powered e.2 : Int) ≤ maxCp l bv := by
  induction l generalizing bv with
  | nil => cases he
  | cons f l ih =>
      rw [maxCp_cons]
      rcases List.mem_cons.mp he with rfl | hmem
      · exact le_trans (le_max_right _ _) (le_maxCp _ _)
      · exact ih _ hmem

theorem maxCp_attained (l : List (Nat × PlayerSt)) (bv : Int) :
    maxCp l bv = bv ∨ ∃ e ∈ l, maxCp l bv = (calculate_cities_powered e.2 : Int) := by
  induction l generalizing bv with
  | nil => exact Or.inl rfl
  | cons e l ih =>
      rw [maxCp_cons]
      rcases ih (max bv (calculate_cities_powered e.2 : Int)) with h | ⟨f, hf, hmax⟩
      · rcases max_choice bv (calculate_cities_powered e.2 : Int) with hm | hm
        · exact Or.inl (by rw [h, hm])
        · exact Or.inr ⟨e, List.mem_cons_self e l, by rw [h, hm]⟩
      · exact Or.inr ⟨f, List.mem_cons_of_mem e hf, hmax⟩

theorem bestPlayersAux_eq (l : List (Nat × PlayerSt)) (bv : Int)
    (acc : List (Nat × PlayerSt)) :
    bestPlayersAux l bv acc
      = (if bv = maxCp l bv then acc else [])
        ++ l.filter
            (fun e => (calculate_cities_powered e.2 : Int) == maxCp l bv) := by
  induction l generalizing bv acc with
  | nil => simp [bestPlayersAux, maxCp]
  | cons e l ih =>
      have hcp : (calculate_cities_powered e.2 : Int)
          ≤ maxCp (e :: l) bv := cp_le_maxCp _ bv e (List.mem_cons_self e l)
      rw [maxCp_cons] at hcp ⊢
      by_cases h1 : (calculate_cities_powered e.2 : Int) > bv
      · have hstep : bestPlayersAux (e :: l) bv acc
            = bestPlayersAux l (calculate_cities_powered e.2 : Int) [e] := by
          simp [bestPlayersAux, h1]
        have hmax : max bv (calculate_cities_powered e.2 : Int)
            = (calculate_cities_powered e.2 : Int) := max_eq_right (le_of_lt h1)
        rw [hstep, ih, hmax]
        have hbv : ¬ (bv = maxCp l (calculate_cities_powered e.2 : Int)) := by
          have := le_maxCp l (calculate_cities_powered e.2 : Int)
          omega
        rw [if_neg hbv, List.filter_cons]
        by_cases h2 : (calculate_cities_powered e.2 : Int)
            = maxCp l (calculate_cities_powered e.2 : Int)
        · rw [if_pos h2, if_pos (beq_iff_eq.mpr h2)]
          simp
        · rw [if_neg h2, if_neg (fun hcon => h2 (beq_iff_eq.mp hcon))]
      · by_cases h2 : (calculate_cities_powered e.2 : Int) = bv
        · have hstep : bestPlayersAux (e :: l) bv acc
              = bestPlayersAux l bv (acc ++ [e]) := by
            simp [bestPlayersAux, h1, h2]
          have hmax : max bv (calculate_cities_powered e.2 : Int) = bv := by
            omega
          rw [hstep, ih, hmax, List.filter_cons]
          by_cases h3 : bv = maxCp l bv
          · rw [if_pos h3, if_pos h3]
            rw [h2, ← h3]
            simp
          · rw [if_neg h3, if_neg h3]
            have : ¬ ((calculate_cities_powered e.2 : Int) = maxCp l bv) := by
              omega
            simp [this]
        · have hstep : bestPlayersAux (e :: l) bv acc
              = bestPlayersAux l bv acc := by
            simp [bestPlayersAux, h1, h2]
          have hmax : max bv (calculate_cities_powered e.2 : Int) = bv := by
            omega
          rw [hstep, ih, hmax, List.filter_cons]
          have hlt : (calculate_cities_powered e.2 : Int) < bv := by omega
          have : ¬ ((calculate_cities_powered e.2 : Int) = maxCp l bv) := by
            have := le_maxCp l bv
            omega
          simp [this]

/-- One step of the head of the stable descending sort: a new element
takes the front only when its money is strictly larger. -/
def headStep (ob : Option (Nat × PlayerSt)) (y : Nat × PlayerSt) :
    Option (Nat × PlayerSt) :=
  match ob with
  | none => some y
  | some b => if y.2.money > b.2.money then some y else some b

theorem head_insertByMoneyDesc (x : Nat × PlayerSt) (s : List (Nat × PlayerSt)) :
    (insertByMoneyDesc x s).head? = headStep s.head? x := by
  cases s with
  | nil => rfl
  | cons y ys =>
      by_cases h : x.2.money > y.2.money
      · simp [insertByMoneyDesc, headStep, h]
      · simp [insertByMoneyDesc, headStep, h]

theorem sortFold_head (l : List (Nat × PlayerSt)) (acc : List (Nat × PlayerSt)) :
    ((l.foldl (fun a x => insertByMoneyDesc x a) acc)).head?
      = l.foldl headStep acc.head? := by
  induction l generalizing acc with
  | nil => rfl
  | cons x xs ih =>
      simp only [List.foldl_cons]
      rw [ih, head_insertByMoneyDesc]

theorem sortByMoneyDesc_head (l : List (Nat × PlayerSt)) :
    (sortByMoneyDesc l).head? = l.foldl headStep none :=
  sortFold_head l []

theorem foldl_headStep_some (xs : List (Nat × PlayerSt)) (x : Nat × PlayerSt) :
    xs.foldl headStep (some x)
      = some (xs.foldl
          (fun b y => if y.2.money > b.2.money then y else b) x) := by
  induction xs generalizing x with
  | nil => rfl
  | cons y ys ih =>
      simp only [List.foldl_cons, headStep]
      by_cases h : y.2.money > x.2.money
      · rw [if_pos h, if_pos h, ih]
      · rw [if_neg h, if_neg h, ih]

/-- The money-argmax fold keeps the first element attaining the maximum
money: the list splits around the result, with strictly smaller money
before it and no larger money after it. -/
theorem firstMax_split (xs : List (Nat × PlayerSt)) (x : Nat × PlayerSt) :
    ∃ l1 l2, x :: xs
        = l1 ++ (xs.foldl (fun b y => if y.2.money > b.2.money then y else b) x)
            :: l2 ∧
      (∀ y ∈ l1,
        y.2.money
          < (xs.foldl (fun b y => if y.2.money > b.2.money then y else b) x).2.money) ∧
      (∀ y ∈ l2,
        y.2.money
          ≤ (xs.foldl (fun b y => if y.2.money > b.2.money then y else b) x).2.money) := by
  induction xs generalizing x with
  | nil => exact ⟨[], [], rfl, by simp, by simp⟩
  | cons y ys ih =>
      simp only [List.foldl_cons]
      by_cases h : y.2.money > x.2.money
      · rw [if_pos h]
        obtain ⟨l1, l2, hsplit, h1, h2⟩ := ih y
        have hhead : y.2.money
            ≤ (ys.foldl (fun b z => if z.2.money > b.2.money then z else b) y).2.money := by
          cases l1 with
          | nil =>
              have := List.cons.injEq y ys _ _ ▸ hsplit
              rw [List.nil_append] at hsplit
              have heq := (List.cons.inj hsplit).1
              rw [← heq]
          | cons z l1t =>
              rw [List.cons_append] at hsplit
              have heq := (List.cons.inj hsplit).1
              exact le_of_lt (heq ▸ h1 z (List.mem_cons_self z l1t))
        refine ⟨x :: l1, l2, ?_, ?_, h2⟩
        · rw [List.cons_append, ← hsplit]
        · intro z hz
          rcases List.mem_cons.mp hz with rfl | hmem
          · omega
          · exact h1 z hmem
      · rw [if_neg h]
        obtain ⟨l1, l2, hsplit, h1, h2⟩ := ih x
        cases l1 with
        | nil =>
            rw [List.nil_append] at hsplit
            have heq := (List.cons.inj hsplit).1
            refine ⟨[], y :: l2, ?_, by simp, ?_⟩
            · rw [List.nil_append, ← heq]
              rw [(List.cons.inj hsplit).2]
            · intro z hz
              rcases List.mem_cons.mp hz with rfl | hmem
              · rw [← heq]
                omega
              · exact h2 z hmem
        | cons w l1t =>
            rw [List.cons_append] at hsplit
            have heq := (List.cons.inj hsplit).1
            have htl := (List.cons.inj hsplit).2
            refine ⟨x :: y :: l1t, l2, ?_, ?_, h2⟩
            · rw [List.cons_append, List.cons_append, ← htl]
            · intro z hz
              have hx : x.2.money
                  < (ys.foldl (fun b z => if z.2.money > b.2.money then z else b) x).2.money :=
                heq ▸ h1 w (List.mem_cons_self w l1t)
              rcases List.mem_cons.mp hz with rfl | hmem
              · exact hx
              · rcases List.mem_cons.mp hmem with rfl | hmem2
                · omega
                · exact h1 z (heq ▸ List.mem_cons_of_mem w hmem2)

theorem enumFrom_pairwise_fst_lt (l : List PlayerSt) :
    ∀ n : Nat, (l.enumFrom n).Pairwise (fun a b => a.1 < b.1) := by
  induction l with
  | nil => intro n; simp
  | cons p l ih =>
      intro n
      rw [List.enumFrom_cons]
      refine List.Pairwise.cons ?_ (ih (n + 1))
      intro y hy
      rcases y with ⟨i, q⟩
      have hle : n + 1 ≤ i :=
        (List.mk_mem_enumFrom_iff_le_and_getElem?_sub.mp hy).1
      show n < i
      omega

theorem enum_pairwise_fst_lt (l : List PlayerSt) :
    l.enum.Pairwise (fun a b => a.1 < b.1) :=
  enumFrom_pairwise_fst_lt l 0

theorem determine_winner_eq (players : List PlayerSt) :
    determine_winner players
      = (if (bestPlayersAux players.enum (-1) []).length > 1
         then sortByMoneyDesc (bestPlayersAux players.enum (-1) [])
         else bestPlayersAux players.enum (-1) []).head?.map Prod.fst := rfl

theorem winner_core (E : List (Nat × PlayerSt)) (hEne : E ≠ [])
    (hEpair : E.Pairwise (fun a b => a.1 < b.1)) :
    ∃ r : Nat × PlayerSt,
      (if (bestPlayersAux E (-1) []).length > 1
       then sortByMoneyDesc (bestPlayersAux E (-1) [])
       else bestPlayersAux E (-1) []).head?.map Prod.fst = some r.1 ∧
      r ∈ E ∧
      (∀ e ∈ E, (calculate_cities_powered e.2 : Int)
        ≤ (calculate_cities_powered r.2 : Int)) ∧
      (∀ e ∈ E, calculate_cities_powered e.2 = calculate_cities_powered r.2 →
        e.2.money ≤ r.2.money) ∧
      (∀ e ∈ E, calculate_cities_powered e.2 = calculate_cities_powered r.2 →
        e.2.money = r.2.money → e ≠ r → r.1 < e.1) := by
  classical
  obtain ⟨e0, hE0⟩ : ∃ e, e ∈ E := by
    cases E with
    | nil => exact absurd rfl hEne
    | cons a l => exact ⟨a, List.mem_cons_self a l⟩
  set M := maxCp E (-1) with hM
  have hM0 : (0 : Int) ≤ M := by
    have h1 := cp_le_maxCp E (-1) e0 hE0
    have h2 : (0 : Int) ≤ (calculate_cities_powered e0.2 : Int) :=
      Int.natCast_nonneg _
    omega
  have hMne : ¬ ((-1 : Int) = M) := by omega
  have hbest : bestPlayersAux E (-1) []
      = E.filter (fun e => (calculate_cities_powered e.2 : Int) == M) := by
    rw [bestPlayersAux_eq, ← hM, if_neg hMne, List.nil_append]
  obtain ⟨f, hfE, hfM⟩ : ∃ f ∈ E, M = (calculate_cities_powered f.2 : Int) := by
    rcases maxCp_attained E (-1) with h | h
    · rw [← hM] at h
      omega
    · rw [← hM] at h
      exact h
  have hfC : f ∈ E.filter (fun e => (calculate_cities_powered e.2 : Int) == M) :=
    List.mem_filter.mpr ⟨hfE, beq_iff_eq.mpr hfM.symm⟩
  obtain ⟨c0, cs, hCeq⟩ : ∃ c0 cs,
      E.filter (fun e => (calculate_cities_powered e.2 : Int) == M)
        = c0 :: cs := by
    cases hfil : E.filter (fun e => (calculate_cities_powered e.2 : Int) == M) with
    | nil => rw [hfil] at hfC; cases hfC
    | cons a l => exact ⟨a, l, rfl⟩
  set r := cs.foldl (fun b y => if y.2.money > b.2.money then y else b) c0 with hr
  have hhead : (if (bestPlayersAux E (-1) []).length > 1
      then sortByMoneyDesc (bestPlayersAux E (-1) [])
      else bestPlayersAux E (-1) []).head? = some r := by
    rw [hbest, hCeq]
    by_cases hlen : (c0 :: cs).length > 1
    · rw [if_pos hlen, sortByMoneyDesc_head, List.foldl_cons]
      rw [show headStep none c0 = some c0 from rfl, foldl_headStep_some, ← hr]
    · rw [if_neg hlen]
      have hcs : cs = [] := by
        simp only [List.length_cons] at hlen
        have : cs.length = 0 := by omega
        exact List.length_eq_zero.mp this
      subst hcs
      rw [hr]
      rfl
  obtain ⟨l1, l2, hsplit, hlt, hle⟩ := firstMax_split cs c0
  rw [← hr] at hsplit hlt hle
  have hrC : r ∈ E.filter (fun e => (calculate_cities_powered e.2 : Int) == M) := by
    rw [hCeq, hsplit]
    exact List.mem_append.mpr (Or.inr (List.mem_cons_self r l2))
  have hrE : r ∈ E := List.mem_of_mem_filter hrC
  have hrMb : ((calculate_cities_powered r.2 : Int) == M) = true :=
    List.of_mem_filter
      (p := fun e : Nat × PlayerSt => (calculate_cities_powered e.2 : Int) == M)
      hrC
  have hrM : (calculate_cities_powered r.2 : Int) = M := beq_iff_eq.mp hrMb
  have hCpair : (E.filter
      (fun e => (calculate_cities_powered e.2 : Int) == M)).Pairwise
        (fun a b => a.1 < b.1) := hEpair.filter _
  refine ⟨r, ?_, hrE, ?_, ?_, ?_⟩
  · rw [hhead]
    rfl
  · intro e he
    rw [hrM]
    exact cp_le_maxCp E (-1) e he
  · intro e he hcp
    have heC : e ∈ E.filter
        (fun e => (calculate_cities_powered e.2 : Int) == M) := by
      refine List.mem_filter.mpr ⟨he, ?_⟩
      rw [beq_iff_eq, ← hrM]
      exact_mod_cast congrArg (Nat.cast : Nat → Int) hcp
    rw [hCeq, hsplit] at heC
    rcases List.mem_append.mp heC with h1 | h1
    · exact le_of_lt (hlt e h1)
    · rcases List.mem_cons.mp h1 with rfl | h2
      · exact le_refl _
      · exact hle e h2
  · intro e he hcp hmoney hner
    have heC : e ∈ E.filter
        (fun e => (calculate_cities_powered e.2 : Int) == M) := by
      refine List.mem_filter.mpr ⟨he, ?_⟩
      rw [beq_iff_eq, ← hrM]
      exact_mod_cast congrArg (Nat.cast : Nat → Int) hcp
    rw [hCeq, hsplit] at heC
    rcases List.mem_append.mp heC with h1 | h1
    · exact absurd hmoney (by have := hlt e h1; omega)
    · rcases List.mem_cons.mp h1 with rfl | h2
      · exact absurd rfl hner
      · have hp := hCpair
        rw [hCeq, hsplit] at hp
        have hp2 := (List.pairwise_append.mp hp).2.1
        exact (List.pairwise_cons.mp hp2).1 e h2

/-- C3. When the game ends, `determine_winner` returns the index of a
player whose `calculate_cities_powered` — recomputed on the spot from the
player's current plants, resources and generators, not cached — is
maximal; among players tied on powerable cities the one with the most
money wins (Python's stable `sort(key=money, reverse=True)`), and among
players still tied on money the one with the lowest index wins (the
stable sort preserves the ascending `enumerate` order). -/
theorem determine_winner_spec (players : List PlayerSt) (hne : players ≠ []) :
    ∃ w pw, determine_winner players = some w ∧ players[w]? = some pw ∧
      ∀ j pj, players[j]? = some pj → j ≠ w →
        calculate_cities_powered pj < calculate_cities_powered pw ∨
        (calculate_cities_powered pj = calculate_cities_powered pw ∧
          (pj.money < pw.money ∨ (pj.money = pw.money ∧ w < j))) := by
  have hEne : players.enum ≠ [] := fun hcon => hne (List.enum_eq_nil.mp hcon)
  obtain ⟨r, hwin, hrE, hmax, hmoney, hidx⟩ :=
    winner_core players.enum hEne (enum_pairwise_fst_lt players)
  refine ⟨r.1, r.2, ?_, List.mem_enum_iff_getElem?.mp hrE, ?_⟩
  · rw [determine_winner_eq]
    exact hwin
  · intro j pj hj hne2
    have hjE : (j, pj) ∈ players.enum := List.mem_enum_iff_getElem?.mpr hj
    have hcple : calculate_cities_powered pj ≤ calculate_cities_powered r.2 := by
      have := hmax (j, pj) hjE
      exact_mod_cast this
    rcases lt_or_eq_of_le hcple with hlt | heq
    · exact Or.inl hlt
    · refine Or.inr ⟨heq, ?_⟩
      have hmle : pj.money ≤ r.2.money := hmoney (j, pj) hjE heq
      rcases lt_or_eq_of_le hmle with hmlt | hmeq
      · exact Or.inl hmlt
      · refine Or.inr ⟨hmeq, ?_⟩
        have hner : (j, pj) ≠ r := by
          intro hcon
          exact hne2 (by rw [← hcon])
        exact hidx (j, pj) hjE heq hmeq hner

/-- Witness for C3: two players, player 0 powers 1 city with a green
plant, player 1 powers none; player 0 wins despite having less money. -/
theorem determine_winner_spec_witness :
    ([{ money := 10, generators := ["a"],
        cards := [{ cost := 13, resource := RType.green, resource_cost := 0,
                    cities := 1 }],
        coal := 0, oil := 0, gas := 0, uranium := 0 },
      { money := 90, generators := [], cards := [],
        coal := 0, oil := 0, gas := 0, uranium := 0 }] : List PlayerSt) ≠ [] ∧
    ∃ w pw,
      determine_winner
        [{ money := 10, generators := ["a"],
           cards := [{ cost := 13, resource := RType.green, resource_cost := 0,
                       cities := 1 }],
           coal := 0, oil := 0, gas := 0, uranium := 0 },
         { money := 90, generators := [], cards := [],
           coal := 0, oil := 0, gas := 0, uranium := 0 }] = some w ∧
      ([{ money := 10, generators := ["a"],
          cards := [{ cost := 13, resource := RType.green, resource_cost := 0,
                      cities := 1 }],
          coal := 0, oil := 0, gas := 0, uranium := 0 },
        { money := 90, generators := [], cards := [],
          coal := 0, oil := 0, gas := 0, uranium := 0 }] : List PlayerSt)[w]?
        = some pw ∧
      ∀ j pj,
        ([{ money := 10, generators := ["a"],
            cards := [{ cost := 13, resource := RType.green, resource_cost := 0,
                        cities := 1 }],
            coal := 0, oil := 0, gas := 0, uranium := 0 },
          { money := 90, generators := [], cards := [],
            coal := 0, oil := 0, gas := 0, uranium := 0 }] : List PlayerSt)[j]?
          = some pj → j ≠ w →
        calculate_cities_powered pj < calculate_cities_powered pw ∨
        (calculate_cities_powered pj = calculate_cities_powered pw ∧
          (pj.money < pw.money ∨ (pj.money = pw.money ∧ w < j))) := by
  constructor
  · intro hcon
    cases hcon
  · exact determine_winner_spec _ (by intro hcon; cases hcon)

/-- `player_action.py::ActionType`. -/
inductive ActionType where
  | AUCTION_PASS
  | AUCTION_OPEN
  | AUCTION_BID
  | AUCTION_BID_PASS
  | RESOURCE_PURCHASE
  | CITY_BUILD
  | POWER_CITIES
  deriving DecidableEq, Repr

/-- `player_action.py::PlayerAction` — the auction-relevant payload
(`resources`, `cities` and `power_plan` do not matter for the auction
validators). -/
structure PAction where
  action_type : ActionType
  plant : Option Card
  bid : Option Int
  discard : Option Card
  deriving DecidableEq, Repr

/-- `PlayerAction.auction_bid_pass()`. -/
def PAction.auction_bid_pass : PAction :=
  { action_type := ActionType.AUCTION_BID_PASS, plant := none, bid := none,
    discard := none }

/-- Python's `min(cards, key=lambda c: c.cost)` — first card attaining
the minimum cost, `none` on an empty list. -/
def minByCostList : List Card → Option Card
  | [] => none
  | c :: cs => some (cs.foldl (fun m x => if x.cost < m.cost then x else m) c)

/-- `GameEngine.validate_auction_opening` (the reason strings are
dropped; `true` = valid). -/
def validate_auction_opening (market : List Card) (p : PlayerSt)
    (a : PAction) : Bool :=
  if a.action_type = ActionType.AUCTION_PASS then true
  else if a.action_type ≠ ActionType.AUCTION_OPEN then false
  else match a.plant with
    | none => false
    | some plant =>
      if plant ∉ market then false
      else match a.bid with
        | none => false
        | some bid =>
          if bid < plant.cost then false
          else if bid > p.money then false
          else if p.cards.length ≥ 3 then
            match minByCostList p.cards with
            | none => true
            | some smallest =>
              if plant.cost ≤ smallest.cost then false
              else match a.discard with
                | none => false
                | some d => if d ∉ p.cards then false else true
          else true

/-- `GameEngine.validate_auction_bid` (`true` = valid; the `plant` and
`current_bid` parameters only feed error strings). -/
def validate_auction_bid (p : PlayerSt) (a : PAction) (min_bid : Int) : Bool :=
  if a.action_type = ActionType.AUCTION_BID_PASS then true
  else if a.action_type ≠ ActionType.AUCTION_BID then false
  else match a.bid with
    | none => false
    | some bid_amount =>
      if bid_amount < min_bid then false
      else if bid_amount > p.money then false
      else if p.cards.length ≥ 3 then
        match a.discard with
        | none => false
        | some d => if d ∉ p.cards then false else true
      else true

/-- Retry loop of `GameEngine.get_validated_auction_opening`
(`for attempt in range(max_retries)`); the strategy is a pluggable
component modelled as `attempts : Nat → Option PAction`, returning `none`
when the call raises.  An invalid action, a raised exception, or a pass
in the first round all consume one attempt; exhaustion raises
(`Except.error`). -/
def openingLoop (market : List Card) (p : PlayerSt) (is_first_round : Bool)
    (attempts : Nat → Option PAction) : Nat → Nat → Except Unit PAction
  | 0, _ => Except.error ()
  | fuel + 1, i =>
    match attempts i with
    | none => openingLoop market p is_first_round attempts fuel (i + 1)
    | some a =>
      if validate_auction_opening market p a = false then
        openingLoop market p is_first_round attempts fuel (i + 1)
      else if is_first_round ∧ a.action_type = ActionType.AUCTION_PASS then
        openingLoop market p is_first_round attempts fuel (i + 1)
      else Except.ok a

/-- `GameEngine.get_validated_auction_opening` with `max_retries = 10`. -/
def get_validated_auction_opening (market : List Card) (p : PlayerSt)
    (is_first_round : Bool) (attempts : Nat → Option PAction) :
    Except Unit PAction :=
  openingLoop market p is_first_round attempts 10 0

/-- Retry loop of `GameEngine.get_validated_auction_bid`; exhaustion
degrades to an automatic pass. -/
def bidLoop (p : PlayerSt) (min_bid : Int)
    (attempts : Nat → Option PAction) : Nat → Nat → PAction
  | 0, _ => PAction.auction_bid_pass
  | fuel + 1, i =>
    match attempts i with
    | none => bidLoop p min_bid attempts fuel (i + 1)
    | some a =>
      if validate_auction_bid p a min_bid = false then
        bidLoop p min_bid attempts fuel (i + 1)
      else a

/-- `GameEngine.get_validated_auction_bid` with `max_retries = 10`: the
engine first auto-passes when the player cannot afford the minimum bid
(before ever consulting the strategy), then runs the retry loop. -/
def get_validated_auction_bid (p : PlayerSt) (min_bid : Int)
    (attempts : Nat → Option PAction) : PAction :=
  if min_bid > p.money then PAction.auction_bid_pass
  else bidLoop p min_bid attempts 10 0

theorem openingLoop_exhaust (market : List Card) (p : PlayerSt)
    (is_first_round : Bool) (attempts : Nat → Option PAction) :
    ∀ fuel i,
      (∀ d, d < fuel → ∀ a, attempts (i + d) = some a →
        validate_auction_opening market p a = false ∨
        (is_first_round = true ∧ a.action_type = ActionType.AUCTION_PASS)) →
      openingLoop market p is_first_round attempts fuel i = Except.error () := by
  intro fuel
  induction fuel with
  | zero => intro i _; rfl
  | succ fuel ih =>
      intro i h
      have hshift : ∀ d, d < fuel → ∀ a2, attempts (i + 1 + d) = some a2 →
          validate_auction_opening market p a2 = false ∨
          (is_first_round = true ∧ a2.action_type = ActionType.AUCTION_PASS) := by
        intro d hd a2 ha2
        have heq : i + 1 + d = i + (d + 1) := by omega
        rw [heq] at ha2
        exact h (d + 1) (by omega) a2 ha2
      simp only [openingLoop]
      cases hat : attempts i with
      | none => exact ih (i + 1) hshift
      | some a =>
          show (if validate_auction_opening market p a = false then
              openingLoop market p is_first_round attempts fuel (i + 1)
            else if is_first_round = true ∧
                a.action_type = ActionType.AUCTION_PASS then
              openingLoop market p is_first_round attempts fuel (i + 1)
            else Except.ok a) = Except.error ()
          rcases h 0 (by omega) a (by rw [Nat.add_zero]; exact hat) with hv | hfp
          · rw [if_pos hv]
            exact ih (i + 1) hshift
          · by_cases hv : validate_auction_opening market p a = false
            · rw [if_pos hv]
              exact ih (i + 1) hshift
            · rw [if_neg hv, if_pos ⟨hfp.1, hfp.2⟩]
              exact ih (i + 1) hshift

theorem bidLoop_exhaust (p : PlayerSt) (min_bid : Int)
    (attempts : Nat → Option PAction) :
    ∀ fuel i,
      (∀ d, d < fuel → ∀ a, attempts (i + d) = some a →
        validate_auction_bid p a min_bid = false) →
      bidLoop p min_bid attempts fuel i = PAction.auction_bid_pass := by
  intro fuel
  induction fuel with
  | zero => intro i _; rfl
  | succ fuel ih =>
      intro i h
      have hshift : ∀ d, d < fuel → ∀ a2, attempts (i + 1 + d) = some a2 →
          validate_auction_bid p a2 min_bid = false := by
        intro d hd a2 ha2
        have heq : i + 1 + d = i + (d + 1) := by omega
        rw [heq] at ha2
        exact h (d + 1) (by omega) a2 ha2
      simp only [bidLoop]
      cases hat : attempts i with
      | none => exact ih (i + 1) hshift
      | some a =>
          show (if validate_auction_bid p a min_bid = false then
              bidLoop p min_bid attempts fuel (i + 1)
            else a) = PAction.auction_bid_pass
          rw [if_pos (h 0 (by omega) a (by rw [Nat.add_zero]; exact hat))]
          exact ih (i + 1) hshift

/-- C4. Every auction decision is validated and re-requested for up to 10
attempts (`max_retries = 10`; an attempt fails when the strategy raises —
`attempts i = none` — or returns an action that fails validation, and an
opening attempt additionally fails when it passes in the first round).
When all 10 attempts at an auction-opening decision fail, the engine
raises a fatal exception (`Except.error`); when all 10 attempts at a bid
decision fail, the engine substitutes an automatic
`PlayerAction.auction_bid_pass()` instead of aborting. -/
theorem auction_retry_exhaustion (market : List Card) (p : PlayerSt)
    (is_first_round : Bool) (attempts battempts : Nat → Option PAction)
    (min_bid : Int)
    (hopen : ∀ i, i < 10 → ∀ a, attempts i = some a →
      validate_auction_opening market p a = false ∨
      (is_first_round = true ∧ a.action_type = ActionType.AUCTION_PASS))
    (hbid : ∀ i, i < 10 → ∀ a, battempts i = some a →
      validate_auction_bid p a min_bid = false) :
    get_validated_auction_opening market p is_first_round attempts
      = Except.error () ∧
    get_validated_auction_bid p min_bid battempts
      = PAction.auction_bid_pass := by
  constructor
  · exact openingLoop_exhaust market p is_first_round attempts 10 0
      (fun d hd a ha => hopen d (by omega) a (by rw [← ha]; congr 1; omega))
  · unfold get_validated_auction_bid
    by_cases hmoney : min_bid > p.money
    · rw [if_pos hmoney]
    · rw [if_neg hmoney]
      exact bidLoop_exhaust p min_bid battempts 10 0
        (fun d hd a ha => hbid d (by omega) a (by rw [← ha]; congr 1; omega))

/-- Witness for C4: a strategy that always raises (every attempt is
`none`) exhausts the 10 retries; the opening request raises a fatal
error while the bid request degrades to an automatic pass. -/
theorem auction_retry_exhaustion_witness :
    get_validated_auction_opening []
      { money := 50, generators := [], cards := [],
        coal := 0, oil := 0, gas := 0, uranium := 0 }
      false (fun _ => none) = Except.error () ∧
    get_validated_auction_bid
      { money := 50, generators := [], cards := [],
        coal := 0, oil := 0, gas := 0, uranium := 0 }
      10 (fun _ => none) = PAction.auction_bid_pass :=
  auction_retry_exhaustion []
    { money := 50, generators := [], cards := [],
      coal := 0, oil := 0, gas := 0, uranium := 0 }
    false (fun _ => none) (fun _ => none) 10
    (fun _ _ a ha => by cases ha)
    (fun _ _ a ha => by cases ha)

/-- C10. During the bidding loop the minimum next bid is
`current_bid + 1`; whenever it exceeds the bidder's money,
`get_validated_auction_bid` returns the automatic pass before consulting
the strategy: the result is the pass action and is independent of the
strategy's answers (it is never invoked), so a strategy is only consulted
when its player can afford the minimum bid. -/
theorem auction_bid_auto_pass (p : PlayerSt) (current_bid : Int)
    (attempts attempts2 : Nat → Option PAction)
    (h : current_bid + 1 > p.money) :
    get_validated_auction_bid p (current_bid + 1) attempts
      = PAction.auction_bid_pass ∧
    get_validated_auction_bid p (current_bid + 1) attempts
      = get_validated_auction_bid p (current_bid + 1) attempts2 := by
  unfold get_validated_auction_bid
  rw [if_pos h, if_pos h]
  exact ⟨rfl, rfl⟩

/-- A bidding strategy that always bids 100. -/
def alwaysBid100 : PAction :=
  { action_type := ActionType.AUCTION_BID, plant := none, bid := some 100,
    discard := none }

/-- A player with 5 Elektro and nothing else. -/
def poorPlayer : PlayerSt :=
  { money := 5, generators := [], cards := [], coal := 0, oil := 0, gas := 0,
    uranium := 0 }

/-- Witness for C10: money 5, current bid 5, so the minimum bid 6 is
unaffordable; one strategy would bid 100, the other raises, and both
produce the same automatic pass. -/
theorem auction_bid_auto_pass_witness :
    get_validated_auction_bid poorPlayer (5 + 1) (fun _ => some alwaysBid100)
      = PAction.auction_bid_pass ∧
    get_validated_auction_bid poorPlayer (5 + 1) (fun _ => some alwaysBid100)
      = get_validated_auction_bid poorPlayer (5 + 1) (fun _ => none) :=
  auction_bid_auto_pass poorPlayer 5 (fun _ => some alwaysBid100)
    (fun _ => none) (by norm_num [poorPlayer])

/-- A card counts toward the requested type in
`validate_resource_purchase`: exact type match, or a hybrid `oil&gas`
plant when oil or gas is requested. -/
def plantMatches (c : Card) (t : RType) : Prop :=
  c.resource = t ∨ (c.resource = RType.oilgas ∧ (t = RType.oil ∨ t = RType.gas))

instance (c : Card) (t : RType) : Decidable (plantMatches c t) := by
  unfold plantMatches
  infer_instance

theorem purchaseCapacity_go (t : RType) : ∀ (cards : List Card) (b : Bool) (n : Nat),
    cards.foldl
      (fun acc card =>
        if card.resource = t then
          (true, acc.2 + card.resource_cost * 2)
        else if card.resource = RType.oilgas ∧
            (t = RType.oil ∨ t = RType.gas) then
          (true, acc.2 + card.resource_cost * 2)
        else acc) (b, n)
    = (b || cards.any (fun c => decide (plantMatches c t)),
       n + 2 * ((cards.filter (fun c => decide (plantMatches c t))).map
         (fun c => c.resource_cost)).sum) := by
  intro cards
  induction cards with
  | nil => intro b n; simp
  | cons c cs ih =>
      intro b n
      simp only [List.foldl_cons, List.any_cons, List.filter_cons]
      by_cases h1 : c.resource = t
      · rw [if_pos h1, ih true (n + c.resource_cost * 2)]
        have hm : plantMatches c t := Or.inl h1
        simp only [decide_eq_true hm, if_true, List.map_cons, List.sum_cons,
          Prod.mk.injEq]
        exact ⟨by simp, by omega⟩
      · by_cases h2 : c.resource = RType.oilgas ∧ (t = RType.oil ∨ t = RType.gas)
        · rw [if_neg h1, if_pos h2, ih true (n + c.resource_cost * 2)]
          have hm : plantMatches c t := Or.inr h2
          simp only [decide_eq_true hm, if_true, List.map_cons, List.sum_cons,
            Prod.mk.injEq]
          exact ⟨by simp, by omega⟩
        · rw [if_neg h1, if_neg h2, ih b n]
          have hm : ¬ plantMatches c t := by
            unfold plantMatches
            tauto
          simp [decide_eq_false hm]

theorem purchaseCapacity_spec (cards : List Card) (t : RType) :
    purchaseCapacity cards t
      = (cards.any (fun c => decide (plantMatches c t)),
         2 * ((cards.filter (fun c => decide (plantMatches c t))).map
           (fun c => c.resource_cost)).sum) := by
  unfold purchaseCapacity
  rw [purchaseCapacity_go]
  simp

/-- The hybrid plant of cost 8 from the deck data
(`['8', 'oil&gas', '2', '3']`). -/
def hybridCard8 : Card :=
  { cost := 8, resource := RType.oilgas, resource_cost := 2, cities := 3 }

/-- A player owning only the hybrid cost-8 plant who already holds 4 oil. -/
def hybridPlayer : PlayerSt :=
  { money := 50, generators := [], cards := [hybridCard8], coal := 0, oil := 4,
    gas := 0, uranium := 0 }

/-- C8 counterexample to the shared-hybrid-capacity claim: the player's
only plant is the hybrid of `resource_cost` 2 (shared capacity
2 × 2 = 4), they already hold 4 oil, and the engine still accepts buying
4 gas — `validate_resource_purchase` counts the hybrid capacity for oil
and for gas independently, so the combined holdings attributable to the
hybrid reach 8 > 4. -/
theorem hybrid_capacity_counterexample :
    validate_resource_purchase hybridPlayer RType.gas 4 = true ∧
    hybridPlayer.oil + (hybridPlayer.gas + 4)
      > 2 * hybridCard8.resource_cost := by
  decide

/-- C8 (amended: a hybrid `oil&gas` plant contributes `2 × resource_cost`
capacity to oil and to gas independently — no joint bound is enforced, so
the combined oil-plus-gas holdings attributable to a hybrid plant may
reach twice its shared capacity).  Every purchase the engine accepts
keeps the per-type bound: when `validate_resource_purchase` returns true
the player owns a plant usable with the type, and the inventory after
adding `amount` stays within `2 ×` the sum of `resource_cost` over the
player's plants of that type (hybrids counting for oil and for gas). -/
theorem validate_resource_purchase_bound (p : PlayerSt) (t : RType)
    (amount : Nat) (h : validate_resource_purchase p t amount = true) :
    (∃ c ∈ p.cards, plantMatches c t) ∧
    resGet p t + amount
      ≤ 2 * ((p.cards.filter (fun c => decide (plantMatches c t))).map
          (fun c => c.resource_cost)).sum := by
  unfold validate_resource_purchase at h
  rw [purchaseCapacity_spec] at h
  simp only [] at h
  by_cases h1 : p.cards.any (fun c => decide (plantMatches c t)) = true
  · rw [if_neg (by simp [h1])] at h
    constructor
    · rcases List.any_eq_true.mp h1 with ⟨c, hc, hdec⟩
      exact ⟨c, hc, of_decide_eq_true hdec⟩
    · by_cases h2 : resGet p t + amount
          > 2 * ((p.cards.filter (fun c => decide (plantMatches c t))).map
            (fun c => c.resource_cost)).sum
      · rw [if_pos h2] at h
        cases h
      · omega
  · rw [if_pos (by simp [h1])] at h
    cases h

/-- The coal plant of cost 4 from the deck data
(`['4', 'coal', '2', '1']`). -/
def coalCard4 : Card :=
  { cost := 4, resource := RType.coal, resource_cost := 2, cities := 1 }

/-- A player owning only the coal cost-4 plant, with empty inventory. -/
def coalPlayer : PlayerSt :=
  { money := 50, generators := [], cards := [coalCard4], coal := 0, oil := 0,
    gas := 0, uranium := 0 }

/-- Witness for C8: the engine accepts buying 4 coal for the owner of the
cost-4 coal plant (capacity 2 × 2 = 4) and the bound holds. -/
theorem validate_resource_purchase_bound_witness :
    validate_resource_purchase coalPlayer RType.coal 4 = true ∧
    ((∃ c ∈ coalPlayer.cards, plantMatches c RType.coal) ∧
      resGet coalPlayer RType.coal + 4
        ≤ 2 * ((coalPlayer.cards.filter
            (fun c => decide (plantMatches c RType.coal))).map
              (fun c => c.resource_cost)).sum) :=
  ⟨by decide, validate_resource_purchase_bound coalPlayer RType.coal 4 (by decide)⟩

/-- The board graph as an adjacency association list (city →
neighbours with edge costs), the normalized form
`GameEngine.calculate_connection_cost` builds before searching. -/
def Graph : Type := List (String × List (String × Nat))

/-- Running minimum over candidate connection costs (`float('inf')`
modelled as `none`). -/
def optMin (a : Option Nat) (b : Nat) : Option Nat :=
  match a with
  | none => some b
  | some x => some (min x b)

/-- `GameEngine.calculate_connection_cost` — 0 with no generators;
otherwise, for each owned city present in the graph (with the target
also present), the direct edge cost when a direct edge exists and
otherwise the two-hop costs through the neighbours of the owned city;
the minimum over everything, with fallback 50 when nothing was found. -/
def calculate_connection_cost (g : Graph) (generators : List String)
    (target_city : String) : Nat :=
  if generators.isEmpty then 0
  else
    let min_cost := generators.foldl
      (fun mc start_city =>
        match List.lookup start_city g, List.lookup target_city g with
        | some adj, some _ =>
          match List.lookup target_city adj with
          | some cost => optMin mc cost
          | none =>
            adj.foldl
              (fun mc2 inter =>
                match List.lookup inter.1 g with
                | some iadj =>
                  match List.lookup target_city iadj with
                  | some c2 => optMin mc2 (inter.2 + c2)
                  | none => mc2
                | none => mc2)
              mc
        | _, _ => mc)
      none
    match min_cost with
    | some c => c
    | none => 50

/-- The candidate connection costs one owned city contributes, following
the amended reading of the spec: the direct edge cost when a direct edge
exists, and only otherwise the two-hop costs through single
intermediates. -/
def cityCandidates (g : Graph) (start_city target_city : String) : List Nat :=
  match List.lookup start_city g, List.lookup target_city g with
  | some adj, some _ =>
    match List.lookup target_city adj with
    | some cost => [cost]
    | none =>
      adj.filterMap
        (fun inter =>
          match List.lookup inter.1 g with
          | some iadj =>
            (List.lookup target_city iadj).map (fun c2 => inter.2 + c2)
          | none => none)
  | _, _ => []

/-- Declarative reference for `calculate_connection_cost`, written from
the spec sentence (amended: two-hop routes are considered only when no
direct edge exists): 0 with no owned cities, else the minimum over all
owned cities' candidates, with fixed fallback 50 when no candidate
exists. -/
def connection_cost_spec_model (g : Graph) (generators : List String)
    (target_city : String) : Nat :=
  if generators.isEmpty then 0
  else
    match (generators.flatMap (fun s => cityCandidates g s target_city)).min? with
    | some m => m
    | none => 50

theorem twoHopFold_eq (g : Graph) (target_city : String) :
    ∀ (adj : List (String × Nat)) (mc : Option Nat),
      adj.foldl
        (fun mc2 inter =>
          match List.lookup inter.1 g with
          | some iadj =>
            match List.lookup target_city iadj with
            | some c2 => optMin mc2 (inter.2 + c2)
            | none => mc2
          | none => mc2)
        mc
      = (adj.filterMap
          (fun inter =>
            match List.lookup inter.1 g with
            | some iadj =>
              (List.lookup target_city iadj).map (fun c2 => inter.2 + c2)
            | none => none)).foldl optMin mc := by
  intro adj
  induction adj with
  | nil => intro mc; rfl
  | cons inter adj ih =>
      intro mc
      simp only [List.foldl_cons, List.filterMap_cons]
      cases h1 : List.lookup inter.1 g with
      | none => rw [ih]
      | some iadj =>
          cases h2 : List.lookup target_city iadj with
          | none =>
              rw [ih]
              simp [h2]
          | some c2 =>
              rw [ih]
              simp [h2]

theorem cityStep_eq (g : Graph) (target_city s : String) (mc : Option Nat) :
    (match List.lookup s g, List.lookup target_city g with
     | some adj, some _ =>
       match List.lookup target_city adj with
       | some cost => optMin mc cost
       | none =>
         adj.foldl
           (fun mc2 inter =>
             match List.lookup inter.1 g with
             | some iadj =>
               match List.lookup target_city iadj with
               | some c2 => optMin mc2 (inter.2 + c2)
               | none => mc2
             | none => mc2)
           mc
     | _, _ => mc)
    = (cityCandidates g s target_city).foldl optMin mc := by
  cases h1 : List.lookup s g with
  | none => simp [cityCandidates, h1]
  | some adj =>
      cases h2 : List.lookup target_city g with
      | none => simp [cityCandidates, h1, h2]
      | some x =>
          cases h3 : List.lookup target_city adj with
          | some cost => simp [cityCandidates, h1, h2, h3]
          | none =>
              simp only [cityCandidates, h1, h2, h3]
              exact twoHopFold_eq g target_city adj mc

theorem connFold_eq (g : Graph) (target_city : String) :
    ∀ (gens : List String) (mc : Option Nat),
      gens.foldl
        (fun mc start_city =>
          match List.lookup start_city g, List.lookup target_city g with
          | some adj, some _ =>
            match List.lookup target_city adj with
            | some cost => optMin mc cost
            | none =>
              adj.foldl
                (fun mc2 inter =>
                  match List.lookup inter.1 g with
                  | some iadj =>
                    match List.lookup target_city iadj with
                    | some c2 => optMin mc2 (inter.2 + c2)
                    | none => mc2
                  | none => mc2)
                mc
          | _, _ => mc)
        mc
      = (gens.flatMap (fun s => cityCandidates g s target_city)).foldl optMin mc := by
  intro gens
  induction gens with
  | nil => intro mc; rfl
  | cons s gens ih =>
      intro mc
      simp only [List.foldl_cons, List.flatMap_cons, List.foldl_append]
      rw [ih, cityStep_eq]

theorem foldl_optMin_some (cs : List Nat) :
    ∀ x, cs.foldl optMin (some x) = some (cs.foldl min x) := by
  induction cs with
  | nil => intro x; rfl
  | cons c cs ih =>
      intro x
      simp only [List.foldl_cons]
      rw [show optMin (some x) c = some (min x c) from rfl, ih]

/-- Triangle board: a direct A—B edge of cost 20 and a two-hop route
A—C—B of cost 5 + 5 = 10. -/
def connGraphEx : Graph :=
  [("A", [("B", 20), ("C", 5)]),
   ("B", [("A", 20), ("C", 5)]),
   ("C", [("A", 5), ("B", 5)])]

/-- C9 counterexample: owning A and targeting B, the code returns the
direct edge cost 20 because the two-hop search only runs when no direct
edge exists, while the claim demands the minimum of the direct cost and
the cheapest two-hop cost, `min 20 (5 + 5) = 10`. -/
theorem connection_cost_counterexample :
    calculate_connection_cost connGraphEx ["A"] "B" = 20 ∧
    20 ≠ min 20 (5 + 5) := by
  decide

/-- C9 (amended: for each owned city the direct edge cost is used
whenever a direct edge to the target exists, and the cheapest two-hop
cost through a single intermediate is considered only when there is no
direct edge).  The connection cost is 0 when the player owns no cities;
otherwise it is the minimum of the per-owned-city candidates
(`connection_cost_spec_model`), and when no candidate exists — no owned
city reaches the target directly or in two hops — the fixed fallback 50
is returned rather than a failure. -/
theorem calculate_connection_cost_spec (g : Graph) (generators : List String)
    (target_city : String) :
    calculate_connection_cost g generators target_city
      = connection_cost_spec_model g generators target_city ∧
    (generators = [] →
      calculate_connection_cost g generators target_city = 0) ∧
    (generators ≠ [] →
      generators.flatMap (fun s => cityCandidates g s target_city) = [] →
      calculate_connection_cost g generators target_city = 50) := by
  have hmain : calculate_connection_cost g generators target_city
      = connection_cost_spec_model g generators target_city := by
    simp only [calculate_connection_cost, connection_cost_spec_model]
    by_cases hg : generators.isEmpty
    · rw [if_pos hg, if_pos hg]
    · rw [if_neg hg, if_neg hg]
      rw [connFold_eq]
      cases hc : generators.flatMap (fun s => cityCandidates g s target_city) with
      | nil => rfl
      | cons c cs =>
          rw [show (c :: cs).foldl optMin none = cs.foldl optMin (some c) from rfl,
            foldl_optMin_some]
          rfl
  refine ⟨hmain, ?_, ?_⟩
  · intro h
    subst h
    rfl
  · intro hne hflat
    rw [hmain]
    unfold connection_cost_spec_model
    rw [if_neg (by simp [List.isEmpty_iff, hne]), hflat]
    rfl

/-- Witness for C9: an empty ownership costs 0; a city absent from the
graph yields no candidates and the fallback 50; and the code agrees with
the amended reference on the triangle board. -/
theorem calculate_connection_cost_spec_witness :
    calculate_connection_cost connGraphEx [] "B" = 0 ∧
    calculate_connection_cost connGraphEx ["Z"] "B" = 50 ∧
    calculate_connection_cost connGraphEx ["A"] "B"
      = connection_cost_spec_model connGraphEx ["A"] "B" :=
  ⟨(calculate_connection_cost_spec connGraphEx [] "B").2.1 rfl,
   (calculate_connection_cost_spec connGraphEx ["Z"] "B").2.2
     (by decide) (by decide),
   (calculate_connection_cost_spec connGraphEx ["A"] "B").1⟩

/-- The market-relevant slice of `GameState`: the two plant displays, the
deck, the step and the stage-three flag. -/
structure MarketSt where
  current_market : List Card
  future_market : List Card
  deck : List Card
  step : Nat
  step_3_triggered : Bool
  deriving DecidableEq, Repr

/-- `GameEngine.draw_next_plant` — pops the head of the deck; when the
popped card is the stage-three marker it sets `step_3_triggered` and pops
one more card (or returns nothing when the deck is exhausted). -/
def draw_next_plant (st : MarketSt) : Option Card × MarketSt :=
  match st.deck with
  | [] => (none, st)
  | plant :: rest =>
    if plant.resource = RType.stageThree then
      match rest with
      | [] => (none, { st with deck := [], step_3_triggered := true })
      | p2 :: rest2 => (some p2, { st with deck := rest2, step_3_triggered := true })
    else (some plant, { st with deck := rest })

/-- One insertion of Python's stable `plants.sort(key=lambda c: c.cost)`. -/
def insertByCost (x : Card) : List Card → List Card
  | [] => [x]
  | y :: ys => if x.cost < y.cost then x :: y :: ys else y :: insertByCost x ys

/-- Stable ascending-by-cost sort of a plant list. -/
def sortByCost (l : List Card) : List Card :=
  l.foldl (fun acc x => insertByCost x acc) []

/-- The `while len(all_plants) < target: draw` loop of
`update_market_after_purchase`; the fuel argument (instantiated with
`deck.length + 1`, always enough since each iteration pops at least one
card or stops) renders the while loop. -/
def fillPlants (target : Nat) : Nat → List Card → MarketSt → List Card × MarketSt
  | 0, plants, st => (plants, st)
  | fuel + 1, plants, st =>
    if plants.length < target then
      match draw_next_plant st with
      | (none, st2) => (plants, st2)
      | (some c, st2) => fillPlants target fuel (plants ++ [c]) st2
    else (plants, st)

/-- The `while len(future_market) > 5: deck.append(future_market.pop())`
loop, fuel-rendered. -/
def trimFuture : Nat → List Card → List Card → List Card × List Card
  | 0, fm, deck => (fm, deck)
  | fuel + 1, fm, deck =>
    if fm.length > 5 then
      match fm.getLast? with
      | some last => trimFuture fuel fm.dropLast (deck ++ [last])
      | none => (fm, deck)
    else (fm, deck)

/-- `GameEngine.update_market_after_purchase` — Step 3: one combined
market of the 6 cheapest plants (excess returned to the deck); Steps 1-2:
combine both markets, draw from the deck until 9 plants are held, sort,
put the 4 cheapest in the current market and the rest in the future
market, moving future plants beyond 5 to the bottom of the deck. -/
def update_market_after_purchase (st : MarketSt) : MarketSt :=
  if st.step = 3 then
    let all0 := st.current_market ++ st.future_market
    let r := fillPlants 6 (st.deck.length + 1) all0 st
    let all2 := sortByCost r.1
    if all2.length > 6 then
      { r.2 with current_market := all2.take 6, future_market := [],
                 deck := r.2.deck ++ all2.drop 6 }
    else
      { r.2 with current_market := all2, future_market := [] }
  else
    let all0 := st.current_market ++ st.future_market
    let r := fillPlants 9 (st.deck.length + 1) all0 st
    let all2 := sortByCost r.1
    let fut := all2.drop 4
    let r2 := trimFuture (fut.length + 1) fut r.2.deck
    { r.2 with current_market := all2.take 4, future_market := r2.1,
               deck := r2.2 }

/-- `game_engine.py::STEP_2_THRESHOLDS.get(n, 7)` — cities needed to
trigger Step 2, by player count. -/
def step_2_thresholds (n : Nat) : Nat :=
  match n with
  | 2 => 7 | 3 => 7 | 4 => 7 | 5 => 6 | 6 => 5
  | _ => 7

/-- `GameEngine.check_step_transitions` — Step 1→2 the moment any player
reaches the threshold: sets step 2, removes the cheapest current-market
plant, and calls `update_market_after_purchase`; then Step 2→3 when the
stage-three marker has been drawn: removes the cheapest plant and
collapses both markets into the 6 cheapest. -/
def check_step_transitions (players : List PlayerSt) (num_players : Nat)
    (st : MarketSt) : MarketSt :=
  let st1 :=
    if st.step = 1 ∧ players.any
        (fun p => step_2_thresholds num_players ≤ p.generators.length) then
      let su := { st with step := 2 }
      if su.current_market ≠ [] then
        match minByCostList su.current_market with
        | some smallest =>
          update_market_after_purchase
            { su with current_market := su.current_market.erase smallest }
        | none => su
      else su
    else st
  if st1.step = 2 ∧ st1.step_3_triggered then
    let st2 := { st1 with step := 3 }
    let st3 :=
      if st2.current_market ≠ [] then
        match minByCostList st2.current_market with
        | some smallest =>
          { st2 with current_market := st2.current_market.erase smallest }
        | none => st2
      else st2
    let allp := sortByCost (st3.current_market ++ st3.future_market)
    { st3 with current_market := allp.take 6, future_market := [] }
  else st1

/-- A generic coal plant card of the given cost, for concrete market
scenarios. -/
def stepCard (n : Int) : Card :=
  { cost := n, resource := RType.coal, resource_cost := 1, cities := 1 }

/-- A player who has just connected the 7th city (the step-2 threshold
for 2-4 players). -/
def p7ex : PlayerSt :=
  { money := 50, generators := ["a", "b", "c", "d", "e", "f", "g"],
    cards := [], coal := 0, oil := 0, gas := 0, uranium := 0 }

/-- A step-1 state: current market costs 3,4,5,6; future market costs
7,8,9,10; two cards (11, 12) left in the deck. -/
def stEx7 : MarketSt :=
  { current_market := [stepCard 3, stepCard 4, stepCard 5, stepCard 6],
    future_market := [stepCard 7, stepCard 8, stepCard 9, stepCard 10],
    deck := [stepCard 11, stepCard 12], step := 1, step_3_triggered := false }

/-- C7.  The claim (and the code's own comment "Europe: remove smallest
plant, don't replace") says the step-1→2 transition removes the cheapest
current-market plant with no refill.  The code removes the cheapest plant
and then calls `update_market_after_purchase`, which draws replacement
plants from the deck: at this concrete input the transition fires (step
becomes 2, plant 3 is gone), yet the current market is refilled back to 4
plants — costs 4,5,6,7 — and both deck cards are consumed.  Under the
claim the market would hold 3 plants and the deck would still hold 2
cards. -/
theorem step_two_transition_refills_market :
    (check_step_transitions [p7ex] 2 stEx7).step = 2 ∧
    stEx7.current_market.length = 4 ∧
    stEx7.deck.length = 2 ∧
    (check_step_transitions [p7ex] 2 stEx7).current_market.length = 4 ∧
    (check_step_transitions [p7ex] 2 stEx7).deck.length = 0 ∧
    (check_step_transitions [p7ex] 2 stEx7).current_market.map Card.cost
      = [4, 5, 6, 7] := by
  decide
